import Mathlib

/-!
# Verification of the GraphQL execution engine (`GraphQLService.h`)

A shallow embedding of the engine's data model and operations, together with
theorems settling the specification claims.

The repository ships the header `src/GraphQLService.h`, which contains the
full template code for argument coercion (`ModifiedArgument`) and result
shaping (`ModifiedResult`).  Those definitions are translated directly from
the header.  The bodies implemented in the library translation unit
(`schema_exception`, the per-scalar converters, `SelectionVisitor`,
`Object::resolve`, `Request::resolve`, the value/fragment/operation
visitors) are not part of the sources; where they are needed, the
definitions below are modelled from the specification and say so in their
doc comments.
-/

set_option autoImplicit false

namespace GraphQL

/-- A JSON value, mirroring the tagged value type of the consumed JSON
library (`web::json::value`): null, bool, integer and floating numbers,
string, ordered array, and object keyed by string. -/
inductive Json where
  | null : Json
  | bool (b : Bool) : Json
  | int (n : Int) : Json
  | float (q : Rat) : Json
  | str (s : String) : Json
  | arr (elements : List Json) : Json
  | obj (fields : List (String × Json)) : Json

/-- A JSON object: an ordered association of string keys to values
(`web::json::object`). -/
def JObj := List (String × Json)

/-- First-match association-list lookup, modelling key lookup in a JSON
object or in the other string-keyed maps of the engine. -/
def assocLookup {α : Type} : List (String × α) → String → Option α
  | [], _ => Option.none
  | (k, v) :: rest, key => if k = key then Option.some v else assocLookup rest key

/-- `schema_exception` carries one or more error message strings
(`GraphQLService.h:26`). -/
structure SchemaError where
  messages : List String

/-- `web::json::object::at`: yields the value bound to the key, or throws a
`json_exception` when the key is missing.  The exception's text is the JSON
library's key-lookup failure message. -/
def objAt (o : JObj) (key : String) : Except String Json :=
  match assocLookup o key with
  | Option.some v => Except.ok v
  | Option.none => Except.error "Key not found"

/-- `web::json::value::as_array`: yields the element list of an array value
and throws a `json_exception` on any other tag. -/
def asArray : Json → Except String (List Json)
  | Json.arr elements => Except.ok elements
  | _ => Except.error "not an array"

/-- `web::json::value::is_null` (`GraphQLService.h:124`). -/
def isNull : Json → Bool
  | Json.null => true
  | _ => false

/-- The `TypeModifier` enumeration (`GraphQLService.h:75`). -/
inductive TypeModifier where
  | none : TypeModifier
  | nullable : TypeModifier
  | list : TypeModifier

/-- The scalar base types for which the library implements argument and
result specializations (`GraphQLService.h:233` and `GraphQLService.h:370`):
`int`, `double`, `std::string`, `bool`, the opaque id byte sequence, and the
raw-JSON `Scalar` wildcard. -/
inductive BaseType where
  | int : BaseType
  | float : BaseType
  | string : BaseType
  | bool : BaseType
  | id : BaseType
  | scalar : BaseType

/-- The native carrier of each scalar base type.  The opaque id's byte
sequence is abstracted as the decoded string's character list, since the
per-scalar converter lives outside the sources. -/
@[reducible]
def baseTy : BaseType → Type
  | BaseType.int => Int
  | BaseType.float => Rat
  | BaseType.string => String
  | BaseType.bool => Bool
  | BaseType.id => List Char
  | BaseType.scalar => Json

/-- The `type` computation of `ModifiedArgument`/`ModifiedResult`
(`GraphQLService.h:94`): peeling the modifier chain outside-in, `Nullable`
wraps in a smart pointer (an `Option`), `List` in a vector, and the `None`
terminal (or the empty chain) is the element type itself. -/
@[reducible]
def modTy (α : Type) : List TypeModifier → Type
  | [] => α
  | TypeModifier.none :: _ => α
  | TypeModifier.nullable :: rest => Option (modTy α rest)
  | TypeModifier.list :: rest => List (modTy α rest)

/-- Modelled from the spec: the per-scalar converter declared as
`ModifiedArgument<T, None>::convert` (`GraphQLService.h:227`) but
implemented outside the sources.  Per the spec, each scalar accepts its own
JSON tag (int, float, string, bool), the opaque id decodes a string to a
byte sequence, and the `Scalar` wildcard accepts the raw JSON; a mismatch
throws a `json_exception` whose text is the library's conversion failure
message. -/
def baseConvert : (b : BaseType) → Json → Except String (baseTy b)
  | BaseType.int, Json.int n => Except.ok n
  | BaseType.int, _ => Except.error "not a number"
  | BaseType.float, Json.float q => Except.ok q
  | BaseType.float, _ => Except.error "not a number"
  | BaseType.string, Json.str s => Except.ok s
  | BaseType.string, _ => Except.error "not a string"
  | BaseType.bool, Json.bool b => Except.ok b
  | BaseType.bool, _ => Except.error "not a boolean"
  | BaseType.id, Json.str s => Except.ok s.data
  | BaseType.id, _ => Except.error "not a string"
  | BaseType.scalar, j => Except.ok j

namespace ModifiedArgument

/-- Builds the `schema_exception` thrown when a `json_exception` is caught
inside `require` (`GraphQLService.h:133` / `h:165` / `h:202`): the single
message is `"Invalid argument: <name> message: <detail>"`. -/
def invalidArgument (name detail : String) : SchemaError :=
  { messages := ["Invalid argument: " ++ name ++ " message: " ++ detail] }

/-- `ModifiedArgument<T, Modifiers...>::require` (`GraphQLService.h:103`,
`h:114`, `h:143`, and the terminal specialization `h:196`), defined by
recursion on the modifier chain:

* terminal (empty chain, or a trailing `None` which just calls through):
  `arguments.at(name)` followed by the per-scalar `convert`, wrapping any
  `json_exception` as `"Invalid argument: <name> message: <detail>"`;
* `Nullable`: a missing or null entry yields the empty pointer, otherwise
  the inner chain's result is wrapped in a fresh pointer;
* `List`: `arguments.at(name).as_array()`, each element coerced through the
  inner chain against the synthesized object `{"value": element}` with name
  `"value"`, preserving order; a `json_exception` is wrapped as above while
  an inner `schema_exception` propagates unchanged. -/
def require (b : BaseType) : (m : List TypeModifier) → String → JObj →
    Except SchemaError (modTy (baseTy b) m)
  | [], name, arguments =>
    match objAt arguments name with
    | Except.error detail => Except.error (invalidArgument name detail)
    | Except.ok v =>
      match baseConvert b v with
      | Except.error detail => Except.error (invalidArgument name detail)
      | Except.ok x => Except.ok x
  | TypeModifier.none :: _, name, arguments =>
    match objAt arguments name with
    | Except.error detail => Except.error (invalidArgument name detail)
    | Except.ok v =>
      match baseConvert b v with
      | Except.error detail => Except.error (invalidArgument name detail)
      | Except.ok x => Except.ok x
  | TypeModifier.nullable :: rest, name, arguments =>
    match assocLookup arguments name with
    | Option.none => Except.ok Option.none
    | Option.some v =>
      if isNull v then Except.ok Option.none
      else
        match require b rest name arguments with
        | Except.error e => Except.error e
        | Except.ok inner => Except.ok (Option.some inner)
  | TypeModifier.list :: rest, name, arguments =>
    match objAt arguments name with
    | Except.error detail => Except.error (invalidArgument name detail)
    | Except.ok v =>
      match asArray v with
      | Except.error detail => Except.error (invalidArgument name detail)
      | Except.ok elements =>
        elements.mapM (fun element => require b rest "value" [("value", element)])

/-- The value produced by the default-initialized local `type value;` in
`find` (`GraphQLService.h:182` / `h:220`): class types (vector, pointer,
string, byte sequence, JSON value) run their default constructors, while
the trivially-constructible scalars `int`, `double` and `bool` are left
indeterminate — whatever happened to be in the stack slot, represented here
by the `junkInt`/`junkFloat`/`junkBool` arguments. -/
def defaultInitBase : (b : BaseType) → Int → Rat → Bool → baseTy b
  | BaseType.int, junkInt, _, _ => junkInt
  | BaseType.float, _, junkFloat, _ => junkFloat
  | BaseType.bool, _, _, junkBool => junkBool
  | BaseType.string, _, _, _ => ""
  | BaseType.id, _, _, _ => []
  | BaseType.scalar, _, _, _ => Json.null

/-- Default-initialization of the full modified type: an outer `Nullable`
is an empty pointer, an outer `List` an empty vector, and the bare element
type falls back to `defaultInitBase`. -/
def defaultInit (b : BaseType) (junkInt : Int) (junkFloat : Rat) (junkBool : Bool) :
    (m : List TypeModifier) → modTy (baseTy b) m
  | [] => defaultInitBase b junkInt junkFloat junkBool
  | TypeModifier.none :: _ => defaultInitBase b junkInt junkFloat junkBool
  | TypeModifier.nullable :: _ => Option.none
  | TypeModifier.list :: _ => []

/-- `ModifiedArgument::find` (`GraphQLService.h:174` and the terminal
specialization `h:212`): calls `require` inside a try/catch; on success the
pair carries the coerced value and `true`, and a caught `schema_exception`
yields a default-initialized local paired with `false`.  The function is
`noexcept` — no exception escapes. -/
def find (b : BaseType) (junkInt : Int) (junkFloat : Rat) (junkBool : Bool)
    (m : List TypeModifier) (name : String) (arguments : JObj) :
    modTy (baseTy b) m × Bool :=
  match require b m name arguments with
  | Except.ok v => (v, true)
  | Except.error _ => (defaultInit b junkInt junkFloat junkBool m, false)

end ModifiedArgument

/-- An AST value node: a literal or a variable reference
(the `ast::Value` kinds listed in the consumed AST interface). -/
inductive AstValue where
  | varRef (name : String) : AstValue
  | int (n : Int) : AstValue
  | float (q : Rat) : AstValue
  | str (s : String) : AstValue
  | bool (b : Bool) : AstValue
  | null : AstValue
  | enum (symbol : String) : AstValue
  | list (elements : List AstValue) : AstValue
  | obj (fields : List (String × AstValue)) : AstValue

mutual

/-- Modelled from the spec: `ValueVisitor` (declared at
`GraphQLService.h:417`, implemented outside the sources) converts an AST
value into JSON against the request variables.  A variable reference looks
the name up in the variables and substitutes JSON null when absent; each
literal maps to its JSON counterpart; an enum becomes the string of its
symbol; lists and objects are coerced element-wise. -/
def coerceValue (vars : JObj) : AstValue → Json
  | AstValue.varRef name =>
    match assocLookup vars name with
    | Option.some v => v
    | Option.none => Json.null
  | AstValue.int n => Json.int n
  | AstValue.float q => Json.float q
  | AstValue.str s => Json.str s
  | AstValue.bool b => Json.bool b
  | AstValue.null => Json.null
  | AstValue.enum symbol => Json.str symbol
  | AstValue.list elements => Json.arr (coerceValueList vars elements)
  | AstValue.obj fields => Json.obj (coerceValueFields vars fields)

/-- Element-wise value coercion of an AST list. -/
def coerceValueList (vars : JObj) : List AstValue → List Json
  | [] => []
  | v :: rest => coerceValue vars v :: coerceValueList vars rest

/-- Field-wise value coercion of an AST object (also used to build a
field's coerced-arguments object from its AST argument list). -/
def coerceValueFields (vars : JObj) : List (String × AstValue) → List (String × Json)
  | [] => []
  | (k, v) :: rest => (k, coerceValue vars v) :: coerceValueFields vars rest

end

/-- A directive attached to a selection (`ast::Directive`): a name such as
`skip` or `include` and its AST argument list. -/
structure Directive where
  name : String
  arguments : List (String × AstValue)

/-- A selection inside a selection set: a field (with optional alias,
arguments, optional directives, optional sub-selection), a fragment spread,
or an inline fragment (the three `ast` selection kinds visited by
`SelectionVisitor`, `GraphQLService.h:401`). -/
inductive Selection where
  | field (fieldAlias : Option String) (name : String)
      (arguments : List (String × AstValue))
      (directives : Option (List Directive))
      (selectionSet : Option (List Selection)) : Selection
  | fragmentSpread (name : String) (directives : Option (List Directive)) : Selection
  | inlineFragment (typeCondition : Option String)
      (directives : Option (List Directive))
      (selectionSet : List Selection) : Selection

/-- A named fragment: its type condition and its selection set
(`GraphQLService.h:40`). -/
structure Fragment where
  typeCondition : String
  selection : List Selection

/-- `FragmentMap` (`GraphQLService.h:56`): fragments by name. -/
def FragmentMap := List (String × Fragment)

/-- `ResolverParams` (`GraphQLService.h:61`): the coerced-arguments object,
an optional sub-selection set, the fragment map, and the request variables
(the source field `variables` is spelled `vars` here). -/
structure ResolverParams where
  arguments : JObj
  selection : Option (List Selection)
  fragments : FragmentMap
  vars : JObj

/-- A resolver functor (`GraphQLService.h:69`): an opaque, user-supplied
function from `ResolverParams` to a JSON value, which may throw a
`schema_exception`. -/
def Resolver := ResolverParams → Except SchemaError Json

/-- `ResolverMap` (`GraphQLService.h:70`): resolvers by field name. -/
def ResolverMap := List (String × Resolver)

/-- The coerced `if` argument of the first directive with the given name,
if any: the directive is looked up by name, its `if` argument is fetched,
and the AST value is put through the value coercer. -/
def directiveIfValue (vars : JObj) (directives : List Directive) (dname : String) :
    Option Json :=
  match directives.find? (fun d => d.name == dname) with
  | Option.none => Option.none
  | Option.some d =>
    match assocLookup d.arguments "if" with
    | Option.none => Option.none
    | Option.some v => Option.some (coerceValue vars v)

/-- True when an optional coerced directive argument is exactly JSON
true. -/
def isJsonTrue : Option Json → Bool
  | Option.some (Json.bool true) => true
  | _ => false

/-- True when an optional coerced directive argument is exactly JSON
false. -/
def isJsonFalse : Option Json → Bool
  | Option.some (Json.bool false) => true
  | _ => false

/-- Modelled from the spec: `SelectionVisitor::shouldSkip` (declared at
`GraphQLService.h:406`, implemented outside the sources).  True exactly
when `@skip` is present with its `if` argument coercing to true, or
`@include` is present with its `if` argument coercing to false; a selection
with no directive list is never skipped. -/
def shouldSkip (vars : JObj) : Option (List Directive) → Bool
  | Option.none => false
  | Option.some directives =>
    isJsonTrue (directiveIfValue vars directives "skip")
    || isJsonFalse (directiveIfValue vars directives "include")

/-- Writes a key into the output object under construction: the first
occurrence of a key keeps its position and a later write overwrites its
value, so the output preserves first-write key order. -/
def setKey : JObj → String → Json → JObj
  | [], key, v => [(key, v)]
  | (k, v0) :: rest, key, v =>
    if k = key then (k, v) :: rest else (k, v0) :: setKey rest key v

/-- Modelled from the spec: the selection-set traversal performed by
`SelectionVisitor` and `Object::resolve` (declared at
`GraphQLService.h:394` and `h:253`, implemented outside the sources).
Selections are processed in source order into an accumulated output
object:

* any selection whose directives make `shouldSkip` true is dropped;
* a field writes under its alias (else its name) the resolver's value —
  the resolver is looked up by field name, invoked with the coerced
  arguments, the sub-selection, the fragments and the variables, and a
  missing resolver yields JSON null; a thrown `schema_exception`
  propagates;
* a fragment spread resolves its name in the fragment map (an unknown name
  is skipped silently) and merges the fragment's selections when its type
  condition is among this object's type names, skipping silently
  otherwise;
* an inline fragment behaves the same with its inline selection set, and
  with no type condition it applies unconditionally.

The `fuel` argument is a modelling device bounding fragment recursion
depth (the C++ recursion does not terminate on cyclic fragment spreads,
which GraphQL validation — a non-goal of the engine — would reject); one
unit of fuel is consumed per selection processed. -/
def execSelections (fragments : FragmentMap) (vars : JObj)
    (typeNames : List String) (resolvers : ResolverMap) :
    Nat → List Selection → JObj → Except SchemaError JObj
  | _, [], acc => Except.ok acc
  | 0, _ :: _, _ => Except.error { messages := ["Fragment recursion limit exceeded"] }
  | Nat.succ fuel, Selection.field fieldAlias name args directives subsel :: rest, acc =>
    if shouldSkip vars directives then
      execSelections fragments vars typeNames resolvers fuel rest acc
    else
      let key := fieldAlias.getD name
      let argObj := coerceValueFields vars args
      match assocLookup resolvers name with
      | Option.none =>
        execSelections fragments vars typeNames resolvers fuel rest (setKey acc key Json.null)
      | Option.some r =>
        match r { arguments := argObj, selection := subsel, fragments := fragments, vars := vars } with
        | Except.error e => Except.error e
        | Except.ok v =>
          execSelections fragments vars typeNames resolvers fuel rest (setKey acc key v)
  | Nat.succ fuel, Selection.fragmentSpread name directives :: rest, acc =>
    if shouldSkip vars directives then
      execSelections fragments vars typeNames resolvers fuel rest acc
    else
      match assocLookup fragments name with
      | Option.none => execSelections fragments vars typeNames resolvers fuel rest acc
      | Option.some frag =>
        if typeNames.contains frag.typeCondition then
          match execSelections fragments vars typeNames resolvers fuel frag.selection acc with
          | Except.error e => Except.error e
          | Except.ok acc2 => execSelections fragments vars typeNames resolvers fuel rest acc2
        else
          execSelections fragments vars typeNames resolvers fuel rest acc
  | Nat.succ fuel, Selection.inlineFragment typeCondition directives subsels :: rest, acc =>
    if shouldSkip vars directives then
      execSelections fragments vars typeNames resolvers fuel rest acc
    else
      let applies :=
        match typeCondition with
        | Option.none => true
        | Option.some tc => typeNames.contains tc
      if applies then
        match execSelections fragments vars typeNames resolvers fuel subsels acc with
        | Except.error e => Except.error e
        | Except.ok acc2 => execSelections fragments vars typeNames resolvers fuel rest acc2
      else
        execSelections fragments vars typeNames resolvers fuel rest acc

/-- `Object` (`GraphQLService.h:248`): the type-condition names this object
answers to, and its resolver map. -/
structure Object where
  typeNames : List String
  resolvers : ResolverMap

/-- Modelled from the spec: `Object::resolve` (declared at
`GraphQLService.h:253`, implemented outside the sources) runs the
selection-set traversal with this object's type names and resolvers and
wraps the accumulated members into a JSON object. -/
def Object.resolve (fuel : Nat) (o : Object) (selection : List Selection)
    (fragments : FragmentMap) (vars : JObj) : Except SchemaError Json :=
  match execSelections fragments vars o.typeNames o.resolvers fuel selection [] with
  | Except.ok fields => Except.ok (Json.obj fields)
  | Except.error e => Except.error e

/-- The element (base) types handled by `ModifiedResult`: the scalar bases
shared with `ModifiedArgument`, plus GraphQL object types
(`GraphQLService.h:376`). -/
inductive ResBase where
  | ofScalar (b : BaseType) : ResBase
  | object : ResBase

/-- The native carrier of a result element type: a scalar's carrier, or a
(shared reference to an) `Object`. -/
@[reducible]
def resElemTy : ResBase → Type
  | ResBase.ofScalar b => baseTy b
  | ResBase.object => Object

/-- Modelled from the spec: the per-scalar terminal of `ModifiedResult`
declared at `GraphQLService.h:363` but implemented outside the sources —
trivial JSON construction from the native scalar value; the opaque id's
byte sequence is re-encoded as the string it decodes from. -/
def baseToJson : (b : BaseType) → baseTy b → Json
  | BaseType.int, n => Json.int n
  | BaseType.float, q => Json.float q
  | BaseType.string, s => Json.str s
  | BaseType.bool, b => Json.bool b
  | BaseType.id, bytes => Json.str (String.mk bytes)
  | BaseType.scalar, j => j

namespace ModifiedResult

/-- The terminal (`None`) conversion of `ModifiedResult`
(`GraphQLService.h:347`): for a scalar base, trivial JSON construction
(modelled from the spec — the specialization is implemented outside the
sources); for an object base, `Object::resolve` on the sub-selection
carried by the `ResolverParams`, where a missing sub-selection is a schema
error (modelled from the spec — composite return requires a selection). -/
def convertTerminal (fuel : Nat) : (b : ResBase) → resElemTy b →
    ResolverParams → Except SchemaError Json
  | ResBase.ofScalar b, x, _ => Except.ok (baseToJson b x)
  | ResBase.object, o, params =>
    (match params.selection with
     | Option.none => Except.error { messages := ["Missing selection set on complex type"] }
     | Option.some sel => Object.resolve fuel o sel params.fragments params.vars)

/-- `ModifiedResult<T, Modifiers...>::convert` (`GraphQLService.h:285`,
`h:296`, `h:312`, `h:328`, and the terminal specialization `h:347`),
defined by recursion on the modifier chain:

* the empty chain, or a trailing `None` which just calls through, runs the
  terminal conversion;
* `Nullable` (both the `shared_ptr` and the `unique_ptr` version): an
  empty pointer emits JSON null, otherwise the inner chain runs on the
  pointee;
* `List`: each element is converted through the inner chain with (a copy
  of) the same `ResolverParams`, in order, into a JSON array of the same
  length; an exception thrown while converting an element propagates. -/
def convert (fuel : Nat) (b : ResBase) : (m : List TypeModifier) →
    modTy (resElemTy b) m → ResolverParams → Except SchemaError Json
  | [], x, params => convertTerminal fuel b x params
  | TypeModifier.none :: _, x, params => convertTerminal fuel b x params
  | TypeModifier.nullable :: rest, x, params =>
    (match x with
     | Option.none => Except.ok Json.null
     | Option.some inner => convert fuel b rest inner params)
  | TypeModifier.list :: rest, xs, params =>
    (match xs.mapM (fun x => convert fuel b rest x params) with
     | Except.error e => Except.error e
     | Except.ok elements => Except.ok (Json.arr elements))

end ModifiedResult

/-- The JSON values accepted by the argument coercer for a given scalar
base and modifier chain: the terminal accepts what the per-scalar
converter accepts, `Nullable` additionally accepts JSON null, and `List`
accepts arrays of element-wise valid values. -/
def validFor (b : BaseType) : List TypeModifier → Json → Bool
  | [], j =>
    (match baseConvert b j with
     | Except.ok _ => true
     | Except.error _ => false)
  | TypeModifier.none :: _, j =>
    (match baseConvert b j with
     | Except.ok _ => true
     | Except.error _ => false)
  | TypeModifier.nullable :: rest, j => isNull j || validFor b rest j
  | TypeModifier.list :: rest, j =>
    (match j with
     | Json.arr elements => elements.all (validFor b rest)
     | _ => false)

/-- A top-level definition of a document: an operation (its kind string,
optional name, and top-level selection set) or a fragment definition. -/
inductive Definition where
  | operation (opType : String) (name : Option String)
      (selectionSet : List Selection) : Definition
  | fragmentDef (name : String) (typeCondition : String)
      (selectionSet : List Selection) : Definition

/-- A parsed document: its list of top-level definitions. -/
def Document := List Definition

/-- Modelled from the spec: `FragmentDefinitionVisitor` (declared at
`GraphQLService.h:441`, implemented outside the sources) walks the
document and collects every fragment definition into the fragment map by
name. -/
def collectFragments : Document → FragmentMap
  | [] => []
  | Definition.operation _ _ _ :: rest => collectFragments rest
  | Definition.fragmentDef name tc sel :: rest =>
    (name, { typeCondition := tc, selection := sel }) :: collectFragments rest

/-- Modelled from the spec: the operation lookup performed by
`OperationDefinitionVisitor` (declared at `GraphQLService.h:456`,
implemented outside the sources).  An empty operation name selects the
sole operation of the document and fails when there is none or more than
one; otherwise the operation with the matching name is selected, failing
when none matches. -/
def findOperation (doc : Document) (operationName : String) :
    Except SchemaError (String × List Selection) :=
  let ops := doc.filterMap (fun d =>
    match d with
    | Definition.operation t n s => Option.some (t, n, s)
    | Definition.fragmentDef _ _ _ => Option.none)
  if operationName = "" then
    match ops with
    | [(t, _, s)] => Except.ok (t, s)
    | [] => Except.error { messages := ["Missing operation"] }
    | _ => Except.error { messages := ["Ambiguous operation"] }
  else
    match ops.find? (fun p => p.2.1 == Option.some operationName) with
    | Option.some (t, _, s) => Except.ok (t, s)
    | Option.none => Except.error { messages := ["Unknown operation: " ++ operationName] }

/-- `Request` (`GraphQLService.h:381`): the map from operation kind to the
root `Object` supplied at construction. -/
structure Request where
  operations : List (String × Object)

/-- Modelled from the spec: the body of `Request::resolve` up to the error
boundary.  Fragments are collected, the operation is located by name, its
kind is looked up in the type map (failing with
`"Unexpected operation type: <kind>"` when absent), and the root object
resolves the operation's selection set. -/
def Request.resolveOutcome (fuel : Nat) (r : Request) (doc : Document)
    (operationName : String) (vars : JObj) : Except SchemaError Json :=
  let fragments := collectFragments doc
  match findOperation doc operationName with
  | Except.error e => Except.error e
  | Except.ok (opType, sel) =>
    match assocLookup r.operations opType with
    | Option.none =>
      Except.error { messages := ["Unexpected operation type: " ++ opType] }
    | Option.some root => Object.resolve fuel root sel fragments vars

/-- Modelled from the spec: `Request::resolve` (declared at
`GraphQLService.h:386`, implemented outside the sources).  A successful
resolution is wrapped as `{"data": result}`; any `schema_exception`
reaching this boundary produces `{"data": null, "errors": [...]}` with one
`{"message": m}` entry per error message. -/
def Request.resolve (fuel : Nat) (r : Request) (doc : Document)
    (operationName : String) (vars : JObj) : Json :=
  match Request.resolveOutcome fuel r doc operationName vars with
  | Except.ok data => Json.obj [("data", data)]
  | Except.error e =>
    Json.obj [("data", Json.null),
      ("errors", Json.arr (e.messages.map (fun m => Json.obj [("message", Json.str m)])))]

/-- The directive list attached to a selection, if any. -/
def selectionDirectives : Selection → Option (List Directive)
  | Selection.field _ _ _ directives _ => directives
  | Selection.fragmentSpread _ directives => directives
  | Selection.inlineFragment _ directives _ => directives

/-! ## Helper lemmas -/

/-- A `mapM` over `Except` that succeeds yields a list of the same length. -/
theorem exceptMapM_ok_length {ε α β : Type} (f : α → Except ε β) :
    ∀ (xs : List α) (ys : List β), xs.mapM f = Except.ok ys → ys.length = xs.length := by
  intro xs
  induction xs with
  | nil =>
    intro ys h
    simp only [List.mapM_nil, pure, Except.pure] at h
    cases h
    rfl
  | cons x rest ih =>
    intro ys h
    rw [List.mapM_cons] at h
    cases hfx : f x with
    | error e => rw [hfx] at h; simp [Bind.bind, Except.bind] at h
    | ok y =>
      rw [hfx] at h
      cases hrest : rest.mapM f with
      | error e => rw [hrest] at h; simp [Bind.bind, Except.bind] at h
      | ok ys2 =>
        rw [hrest] at h
        simp only [Bind.bind, Except.bind, pure, Except.pure] at h
        cases h
        simp [ih ys2 hrest]

/-- `isNull` holds exactly on the JSON null value. -/
theorem isNull_iff (j : Json) : isNull j = true ↔ j = Json.null := by
  cases j <;> simp [isNull]

/-- Unfolding equation for `objAt`. -/
theorem objAt_eq (args : JObj) (name : String) :
    objAt args name =
      (match assocLookup args name with
       | Option.some v => Except.ok v
       | Option.none => Except.error "Key not found") := rfl

/-- Unfolding equation for the terminal `require`. -/
theorem require_terminal_eq (b : BaseType) (name : String) (args : JObj) :
    ModifiedArgument.require b [] name args =
      (match objAt args name with
       | Except.error detail => Except.error (ModifiedArgument.invalidArgument name detail)
       | Except.ok v =>
         match baseConvert b v with
         | Except.error detail => Except.error (ModifiedArgument.invalidArgument name detail)
         | Except.ok x => Except.ok x) := rfl

/-- A trailing `None` modifier just calls through to the terminal
(`GraphQLService.h:110`). -/
theorem require_none_head_eq (b : BaseType) (t : List TypeModifier) (name : String)
    (args : JObj) :
    ModifiedArgument.require b (TypeModifier.none :: t) name args =
      ModifiedArgument.require b [] name args := rfl

/-- Unfolding equation for the `Nullable` case of `require`. -/
theorem require_nullable_eq (b : BaseType) (rest : List TypeModifier) (name : String)
    (args : JObj) :
    ModifiedArgument.require b (TypeModifier.nullable :: rest) name args =
      (match assocLookup args name with
       | Option.none => Except.ok Option.none
       | Option.some v =>
         if isNull v then Except.ok Option.none
         else
           match ModifiedArgument.require b rest name args with
           | Except.error e => Except.error e
           | Except.ok inner => Except.ok (Option.some inner)) := rfl

/-- Unfolding equation for the `List` case of `require`. -/
theorem require_list_eq (b : BaseType) (rest : List TypeModifier) (name : String)
    (args : JObj) :
    ModifiedArgument.require b (TypeModifier.list :: rest) name args =
      (match objAt args name with
       | Except.error detail => Except.error (ModifiedArgument.invalidArgument name detail)
       | Except.ok v =>
         match asArray v with
         | Except.error detail => Except.error (ModifiedArgument.invalidArgument name detail)
         | Except.ok elements =>
           elements.mapM (fun element =>
             ModifiedArgument.require b rest "value" [("value", element)])) := rfl

/-! ## Claims -/

/-- C1: for every schema, document, operation name, variables object (and
fuel bound), `Request.resolve` returns a JSON object that either is
`{"data": <root object>}` on success, or on failure is
`{"data": null, "errors": [...]}` where `"errors"` carries one
`{"message": <string>}` entry per schema error message — so `"data"` is
always present and `"errors"` appears only on failure. -/
theorem request_resolve_envelope (fuel : Nat) (r : Request) (doc : Document)
    (operationName : String) (vars : JObj) :
    (∃ data, Request.resolve fuel r doc operationName vars = Json.obj [("data", data)])
    ∨ (∃ msgs : List String,
        Request.resolve fuel r doc operationName vars =
          Json.obj [("data", Json.null),
            ("errors", Json.arr (msgs.map (fun m => Json.obj [("message", Json.str m)])))]) := by
  unfold Request.resolve
  cases h : Request.resolveOutcome fuel r doc operationName vars with
  | ok data => exact Or.inl ⟨data, rfl⟩
  | error e => exact Or.inr ⟨e.messages, rfl⟩

/-- C2 counterexample: the terminal `require` on a missing argument does
NOT fail with the message `"Invalid argument: id"`: the catch block at
`GraphQLService.h:202` always appends `" message: <detail>"` with the JSON
library's key-lookup failure text, so the single message is
`"Invalid argument: id message: Key not found"`. -/
theorem missing_argument_message_counterexample :
    ModifiedArgument.require BaseType.int [] "id" [] =
      Except.error { messages := ["Invalid argument: id message: Key not found"] }
    ∧ "Invalid argument: id message: Key not found" ≠ "Invalid argument: id" :=
  ⟨rfl, by decide⟩

/-- C2 (amended): for every scalar base, argument name and arguments
object in which the name is absent, the terminal (`None`) `require` fails
with a `SchemaError` whose single message is
`"Invalid argument: <name> message: <detail>"`, `<detail>` being the JSON
library's key-lookup failure text (`"Key not found"`); accordingly the S5
scenario (a `human` resolver requiring the missing `id` argument) produces
`{"data":null,"errors":[{"message":"Invalid argument: id message: Key not found"}]}`. -/
theorem missing_argument_message (b : BaseType) (name : String) (args : JObj)
    (h : assocLookup args name = Option.none) :
    ModifiedArgument.require b [] name args =
      Except.error { messages := ["Invalid argument: " ++ name ++ " message: " ++ "Key not found"] }
    ∧ Request.resolve 1
        { operations := [("query",
            { typeNames := ["Query"],
              resolvers := [("human", fun params =>
                match ModifiedArgument.require BaseType.id [] "id" params.arguments with
                | Except.error e => Except.error e
                | Except.ok _ => Except.ok (Json.str "Luke"))] })] }
        [Definition.operation "query" Option.none
          [Selection.field Option.none "human" [] Option.none Option.none]]
        "" [] =
      Json.obj [("data", Json.null),
        ("errors", Json.arr [Json.obj
          [("message", Json.str "Invalid argument: id message: Key not found")]])] := by
  constructor
  · unfold ModifiedArgument.require objAt
    rw [h]
    rfl
  · rfl

/-- Witness for `missing_argument_message` at a concrete input. -/
theorem missing_argument_message_witness :
    ModifiedArgument.require BaseType.string [] "name" [("other", Json.int 1)] =
      Except.error { messages := ["Invalid argument: name message: Key not found"] } :=
  (missing_argument_message BaseType.string "name" [("other", Json.int 1)] rfl).1

/-- The helper recognizing a coerced `@skip` argument. -/
theorem isJsonTrue_iff (o : Option Json) :
    isJsonTrue o = true ↔ o = Option.some (Json.bool true) := by
  cases o with
  | none => simp [isJsonTrue]
  | some j =>
    cases j with
    | bool bb => cases bb <;> simp [isJsonTrue]
    | null => simp [isJsonTrue]
    | int n => simp [isJsonTrue]
    | float q => simp [isJsonTrue]
    | str s => simp [isJsonTrue]
    | arr a => simp [isJsonTrue]
    | obj f => simp [isJsonTrue]

/-- The helper recognizing a coerced `@include` argument. -/
theorem isJsonFalse_iff (o : Option Json) :
    isJsonFalse o = true ↔ o = Option.some (Json.bool false) := by
  cases o with
  | none => simp [isJsonFalse]
  | some j =>
    cases j with
    | bool bb => cases bb <;> simp [isJsonFalse]
    | null => simp [isJsonFalse]
    | int n => simp [isJsonFalse]
    | float q => simp [isJsonFalse]
    | str s => simp [isJsonFalse]
    | arr a => simp [isJsonFalse]
    | obj f => simp [isJsonFalse]

/-- C4: `shouldSkip` is true exactly when `@skip` is present with its `if`
argument coercing to JSON true or `@include` is present with its `if`
argument coercing to JSON false; a selection whose directives make
`shouldSkip` true is dropped entirely by the selection executor; and with
both `@skip(if:true)` and `@include(if:true)` present the field is
omitted — skip wins. -/
theorem shouldSkip_spec :
    (∀ (vars : JObj) (ds : List Directive),
      shouldSkip vars (Option.some ds) = true ↔
        directiveIfValue vars ds "skip" = Option.some (Json.bool true)
        ∨ directiveIfValue vars ds "include" = Option.some (Json.bool false))
    ∧ (∀ (fragments : FragmentMap) (vars : JObj) (typeNames : List String)
        (resolvers : ResolverMap) (fuel : Nat) (s : Selection) (rest : List Selection)
        (acc : JObj),
      shouldSkip vars (selectionDirectives s) = true →
      execSelections fragments vars typeNames resolvers (fuel + 1) (s :: rest) acc =
        execSelections fragments vars typeNames resolvers fuel rest acc)
    ∧ execSelections [] [] ["Query"]
        [("name", fun _ => Except.ok (Json.str "R2-D2"))] 1
        [Selection.field Option.none "name" []
          (Option.some [{ name := "skip", arguments := [("if", AstValue.bool true)] },
                        { name := "include", arguments := [("if", AstValue.bool true)] }])
          Option.none] [] = Except.ok [] := by
  refine ⟨?_, ?_, rfl⟩
  · intro vars ds
    have heq : shouldSkip vars (Option.some ds) =
        (isJsonTrue (directiveIfValue vars ds "skip")
          || isJsonFalse (directiveIfValue vars ds "include")) := rfl
    rw [heq, Bool.or_eq_true, isJsonTrue_iff, isJsonFalse_iff]
  · intro fragments vars typeNames resolvers fuel s rest acc h
    cases s with
    | field a n ar ds sub =>
      have h2 : shouldSkip vars ds = true := h
      simp [execSelections, h2]
    | fragmentSpread n ds =>
      have h2 : shouldSkip vars ds = true := h
      simp [execSelections, h2]
    | inlineFragment tc ds sub =>
      have h2 : shouldSkip vars ds = true := h
      simp [execSelections, h2]

/-- Witness for `shouldSkip_spec`: a field carrying `@skip(if:true)` is
dropped by the executor. -/
theorem shouldSkip_spec_witness :
    execSelections [] [] [] [] 1
      [Selection.field Option.none "f" []
        (Option.some [{ name := "skip", arguments := [("if", AstValue.bool true)] }])
        Option.none] [] =
    execSelections [] [] [] [] 0 [] [] :=
  shouldSkip_spec.2.1 [] [] [] [] 0
    (Selection.field Option.none "f" []
      (Option.some [{ name := "skip", arguments := [("if", AstValue.bool true)] }])
      Option.none) [] [] rfl

/-- C5: the `List`-modifier `require` demands that the named value be a
JSON array — failing with a `SchemaError` when the name is missing or the
value is not an array — and otherwise coerces each element through the
inner modifier chain against the synthesized single-entry object
`{"value": element}` with name `"value"`, returning (on success) a
sequence of the same length as the array in input order — the `mapM`
equation maps the i-th output from the i-th element. -/
theorem list_require_spec (b : BaseType) (rest : List TypeModifier) (name : String)
    (args : JObj) :
    (∀ elements, assocLookup args name = Option.some (Json.arr elements) →
      ModifiedArgument.require b (TypeModifier.list :: rest) name args =
        elements.mapM (fun element =>
          ModifiedArgument.require b rest "value" [("value", element)]))
    ∧ ((∀ elements, assocLookup args name ≠ Option.some (Json.arr elements)) →
      ∃ e, ModifiedArgument.require b (TypeModifier.list :: rest) name args =
        Except.error e)
    ∧ (∀ vs, ModifiedArgument.require b (TypeModifier.list :: rest) name args =
        Except.ok vs →
      ∃ elements, assocLookup args name = Option.some (Json.arr elements)
        ∧ vs.length = elements.length) := by
  refine ⟨?_, ?_, ?_⟩
  · intro elements h
    rw [require_list_eq, objAt_eq, h]
    rfl
  · intro h
    rw [require_list_eq, objAt_eq]
    cases hl : assocLookup args name with
    | none => exact ⟨_, rfl⟩
    | some v =>
      cases v with
      | arr elements => exact absurd hl (h elements)
      | null => exact ⟨_, rfl⟩
      | bool x => exact ⟨_, rfl⟩
      | int x => exact ⟨_, rfl⟩
      | float x => exact ⟨_, rfl⟩
      | str x => exact ⟨_, rfl⟩
      | obj x => exact ⟨_, rfl⟩
  · intro vs hv
    rw [require_list_eq, objAt_eq] at hv
    cases hl : assocLookup args name with
    | none => rw [hl] at hv; exact Except.noConfusion hv
    | some v =>
      rw [hl] at hv
      cases v with
      | arr elements =>
        exact ⟨elements, rfl, exceptMapM_ok_length _ elements vs hv⟩
      | null => exact Except.noConfusion hv
      | bool x => exact Except.noConfusion hv
      | int x => exact Except.noConfusion hv
      | float x => exact Except.noConfusion hv
      | str x => exact Except.noConfusion hv
      | obj x => exact Except.noConfusion hv

/-- Witness for `list_require_spec` at a concrete two-element array. -/
theorem list_require_spec_witness :
    ModifiedArgument.require BaseType.int [TypeModifier.list] "xs"
        [("xs", Json.arr [Json.int 1, Json.int 2])] =
      [Json.int 1, Json.int 2].mapM (fun element =>
        ModifiedArgument.require BaseType.int [] "value" [("value", element)]) :=
  (list_require_spec BaseType.int [] "xs"
      [("xs", Json.arr [Json.int 1, Json.int 2])]).1 [Json.int 1, Json.int 2] rfl

/-- C6: the `Nullable`-modifier `require` returns "absent" (the empty
pointer, without raising any error) exactly when the name is missing from
the arguments object or bound to JSON null; otherwise it recurses on the
inner modifier chain and wraps the inner value as "present". -/
theorem nullable_require_spec (b : BaseType) (rest : List TypeModifier) (name : String)
    (args : JObj) :
    (ModifiedArgument.require b (TypeModifier.nullable :: rest) name args =
        Except.ok Option.none ↔
      assocLookup args name = Option.none ∨ assocLookup args name = Option.some Json.null)
    ∧ (∀ j, assocLookup args name = Option.some j → j ≠ Json.null →
      ModifiedArgument.require b (TypeModifier.nullable :: rest) name args =
        (ModifiedArgument.require b rest name args).map Option.some) := by
  constructor
  · rw [require_nullable_eq]
    cases hl : assocLookup args name with
    | none => simp
    | some v =>
      cases hv : isNull v with
      | true =>
        have hveq : v = Json.null := (isNull_iff v).mp hv
        subst hveq
        simp [isNull]
      | false =>
        have hvne : v ≠ Json.null := by
          intro hh
          rw [hh] at hv
          exact Bool.noConfusion hv
        simp only [hv, Bool.false_eq_true, if_false]
        constructor
        · intro hc
          cases hr : ModifiedArgument.require b rest name args with
          | error e => rw [hr] at hc; exact Except.noConfusion hc
          | ok inner =>
            rw [hr] at hc
            exact Option.noConfusion (Except.ok.inj hc)
        · intro hc
          cases hc with
          | inl h1 => exact Option.noConfusion h1
          | inr h2 => exact absurd (Option.some.inj h2) hvne
  · intro j hj hne
    rw [require_nullable_eq, hj]
    have hnull : isNull j = false := by
      cases hh : isNull j with
      | true => exact absurd ((isNull_iff j).mp hh) hne
      | false => rfl
    simp only [hnull, Bool.false_eq_true, if_false]
    cases ModifiedArgument.require b rest name args <;> simp [Except.map]

/-- Witness for `nullable_require_spec`: absent and null are "absent", a
present non-null value recurses and wraps. -/
theorem nullable_require_spec_witness :
    (ModifiedArgument.require BaseType.int [TypeModifier.nullable] "x"
        [("x", Json.null)] = Except.ok Option.none ↔
      assocLookup [("x", Json.null)] "x" = Option.none
        ∨ assocLookup [("x", Json.null)] "x" = Option.some Json.null)
    ∧ ModifiedArgument.require BaseType.int [TypeModifier.nullable] "x"
        [("x", Json.int 3)] =
      (ModifiedArgument.require BaseType.int [] "x" [("x", Json.int 3)]).map Option.some :=
  ⟨(nullable_require_spec BaseType.int [] "x" [("x", Json.null)]).1,
   (nullable_require_spec BaseType.int [] "x" [("x", Json.int 3)]).2 (Json.int 3) rfl
     (fun h => Json.noConfusion h)⟩

/-- C7: the `Nullable`-modifier `convert` emits JSON null exactly when the
result is "absent" (the empty pointer) and otherwise recurses on the inner
modifier chain with the contained value; the third conjunct makes the
"exactly" precise — whenever the inner chain itself never produces JSON
null, the output is null if and only if the result is absent. -/
theorem nullable_convert_spec (fuel : Nat) (b : ResBase) (rest : List TypeModifier)
    (params : ResolverParams) :
    (ModifiedResult.convert fuel b (TypeModifier.nullable :: rest) Option.none params =
        Except.ok Json.null)
    ∧ (∀ v, ModifiedResult.convert fuel b (TypeModifier.nullable :: rest)
          (Option.some v) params =
        ModifiedResult.convert fuel b rest v params)
    ∧ ((∀ v, ModifiedResult.convert fuel b rest v params ≠ Except.ok Json.null) →
      ∀ x, (ModifiedResult.convert fuel b (TypeModifier.nullable :: rest) x params =
          Except.ok Json.null ↔ x = Option.none)) := by
  refine ⟨rfl, fun v => rfl, ?_⟩
  intro h x
  cases x with
  | none => exact ⟨fun _ => rfl, fun _ => rfl⟩
  | some v =>
    constructor
    · intro hc
      exact absurd hc (h v)
    · intro hc
      exact Option.noConfusion hc

/-- Witness for `nullable_convert_spec` on a non-null inner chain (base
`int`, no further modifiers) at the present value 3. -/
theorem nullable_convert_spec_witness :
    (ModifiedResult.convert 0 (ResBase.ofScalar BaseType.int) [TypeModifier.nullable]
        (Option.some (3 : Int))
        { arguments := [], selection := Option.none, fragments := [], vars := [] } =
        Except.ok Json.null ↔
      Option.some (3 : Int) = Option.none) :=
  (nullable_convert_spec 0 (ResBase.ofScalar BaseType.int) []
      { arguments := [], selection := Option.none, fragments := [], vars := [] }).2.2
    (fun _ h => Json.noConfusion (Except.ok.inj h)) (Option.some 3)

/-- C8: the `List`-modifier `convert` converts each element of the input
sequence through the inner modifier chain with the same `ResolverParams`
(so the sub-selection set and fragments are propagated to every element),
in input order, and on success emits a JSON array of the same length as
the input sequence. -/
theorem list_convert_spec (fuel : Nat) (b : ResBase) (rest : List TypeModifier)
    (params : ResolverParams) (xs : List (modTy (resElemTy b) rest)) :
    ModifiedResult.convert fuel b (TypeModifier.list :: rest) xs params =
      (match xs.mapM (fun x => ModifiedResult.convert fuel b rest x params) with
       | Except.error e => Except.error e
       | Except.ok elements => Except.ok (Json.arr elements))
    ∧ (∀ j, ModifiedResult.convert fuel b (TypeModifier.list :: rest) xs params =
        Except.ok j →
      ∃ elements,
        xs.mapM (fun x => ModifiedResult.convert fuel b rest x params) =
            Except.ok elements
          ∧ j = Json.arr elements ∧ elements.length = xs.length) := by
  refine ⟨rfl, ?_⟩
  intro j hj
  have hj2 : (match xs.mapM (fun x => ModifiedResult.convert fuel b rest x params) with
      | Except.error e => Except.error e
      | Except.ok elements => Except.ok (Json.arr elements)) = Except.ok j := hj
  cases hm : xs.mapM (fun x => ModifiedResult.convert fuel b rest x params) with
  | error e => rw [hm] at hj2; cases hj2  -- hmm fix below if needed
  | ok elements =>
    rw [hm] at hj2
    exact ⟨elements, rfl, (Except.ok.inj hj2).symm,
      exceptMapM_ok_length _ xs elements hm⟩

/-- Witness for `list_convert_spec` at a concrete two-element list of
ints. -/
theorem list_convert_spec_witness :
    ∃ elements,
      [(1 : Int), 2].mapM (fun x =>
          ModifiedResult.convert 0 (ResBase.ofScalar BaseType.int) [] x
            { arguments := [], selection := Option.none, fragments := [], vars := [] }) =
          Except.ok elements
        ∧ Json.arr [Json.int 1, Json.int 2] = Json.arr elements
        ∧ elements.length = [(1 : Int), 2].length :=
  (list_convert_spec 0 (ResBase.ofScalar BaseType.int) []
      { arguments := [], selection := Option.none, fragments := [], vars := [] }
      [(1 : Int), 2]).2 (Json.arr [Json.int 1, Json.int 2]) rfl

/-- The per-scalar converter and the per-scalar result shaping are mutual
inverses on accepted values. -/
theorem baseToJson_baseConvert (b : BaseType) (j : Json) (x : baseTy b)
    (h : baseConvert b j = Except.ok x) : baseToJson b x = j := by
  cases b <;> cases j <;>
    first
    | exact Except.noConfusion h
    | (injection h with h1; subst h1; rfl)

/-- Element-wise round trip lifted through `mapM`: when coercing then
shaping restores every element of a list, the two `mapM`s compose to the
identity on the list. -/
theorem mapM_round_trip {τ : Type} (fR : Json → Except SchemaError τ)
    (fC : τ → Except SchemaError Json) :
    ∀ (elements : List Json),
      (∀ el, el ∈ elements → (fR el).bind fC = Except.ok el) →
      ∃ vs, elements.mapM fR = Except.ok vs ∧ vs.mapM fC = Except.ok elements := by
  intro elements
  induction elements with
  | nil => exact fun _ => ⟨[], rfl, rfl⟩
  | cons x rest ih =>
    intro h
    have hx := h x (List.mem_cons_self x rest)
    cases hfx : fR x with
    | error e => rw [hfx] at hx; exact Except.noConfusion hx
    | ok v =>
      rw [hfx] at hx
      have hcv : fC v = Except.ok x := hx
      obtain ⟨vs, h1, h2⟩ := ih (fun el hel => h el (List.mem_cons_of_mem x hel))
      refine ⟨v :: vs, ?_, ?_⟩
      · rw [List.mapM_cons, hfx, h1]; rfl
      · rw [List.mapM_cons, hcv, h2]; rfl

/-- C3: the modifier round trip — for every scalar base type, every
modifier chain, and every JSON value the chain accepts, shaping the result
of argument coercion with the same chain reproduces the original JSON:
`require` on `{name: json}` succeeds and `convert` maps its value back to
`json`. -/
theorem modifier_round_trip (b : BaseType) (m : List TypeModifier) :
    ∀ (name : String) (j : Json) (fuel : Nat) (params : ResolverParams),
      validFor b m j = true →
      (ModifiedArgument.require b m name [(name, j)]).bind
        (fun v => ModifiedResult.convert fuel (ResBase.ofScalar b) m v params) =
      Except.ok j := by
  induction m with
  | nil =>
    intro name j fuel params h
    have h2 : (match baseConvert b j with
        | Except.ok _ => true
        | Except.error _ => false) = true := h
    cases hc : baseConvert b j with
    | error e => rw [hc] at h2; exact Bool.noConfusion h2
    | ok x =>
      have hl : assocLookup [(name, j)] name = Option.some j := by simp [assocLookup]
      simp only [require_terminal_eq, objAt_eq, hl, hc, Except.bind]
      show Except.ok (baseToJson b x) = Except.ok j
      rw [baseToJson_baseConvert b j x hc]
  | cons head tail ih =>
    cases head with
    | none =>
      intro name j fuel params h
      have h2 : (match baseConvert b j with
          | Except.ok _ => true
          | Except.error _ => false) = true := h
      cases hc : baseConvert b j with
      | error e => rw [hc] at h2; exact Bool.noConfusion h2
      | ok x =>
        have hl : assocLookup [(name, j)] name = Option.some j := by simp [assocLookup]
        simp only [require_none_head_eq, require_terminal_eq, objAt_eq, hl, hc, Except.bind]
        show Except.ok (baseToJson b x) = Except.ok j
        rw [baseToJson_baseConvert b j x hc]
    | nullable =>
      intro name j fuel params h
      have h2 : (isNull j || validFor b tail j) = true := h
      cases hn : isNull j with
      | true =>
        have hj : j = Json.null := (isNull_iff j).mp hn
        subst hj
        have hl : assocLookup [(name, Json.null)] name = Option.some Json.null := by
          simp [assocLookup]
        simp only [require_nullable_eq, hl, isNull, if_true, Except.bind]
        rfl
      | false =>
        have hv : validFor b tail j = true := by
          rw [hn] at h2
          simpa using h2
        have hl : assocLookup [(name, j)] name = Option.some j := by simp [assocLookup]
        have hrec := ih name j fuel params hv
        cases hr : ModifiedArgument.require b tail name [(name, j)] with
        | error e => rw [hr] at hrec; exact Except.noConfusion hrec
        | ok v =>
          rw [hr] at hrec
          have hcv : ModifiedResult.convert fuel (ResBase.ofScalar b) tail v params =
              Except.ok j := hrec
          simp only [require_nullable_eq, hl, hn, Bool.false_eq_true, if_false, hr,
            Except.bind]
          show ModifiedResult.convert fuel (ResBase.ofScalar b)
              (TypeModifier.nullable :: tail) (Option.some v) params = Except.ok j
          show ModifiedResult.convert fuel (ResBase.ofScalar b) tail v params = Except.ok j
          exact hcv
    | list =>
      intro name j fuel params h
      cases j with
      | arr elements =>
        have h2 : elements.all (validFor b tail) = true := h
        have hall : ∀ el ∈ elements, validFor b tail el = true := by
          intro el hel
          exact List.all_eq_true.mp h2 el hel
        have hl : assocLookup [(name, Json.arr elements)] name =
            Option.some (Json.arr elements) := by simp [assocLookup]
        obtain ⟨vs, h1, hC⟩ := mapM_round_trip
          (fun element => ModifiedArgument.require b tail "value" [("value", element)])
          (fun v => ModifiedResult.convert fuel (ResBase.ofScalar b) tail v params)
          elements
          (fun el hel => ih "value" el fuel params (hall el hel))
        simp only [require_list_eq, objAt_eq, hl, asArray, h1, Except.bind]
        show ModifiedResult.convert fuel (ResBase.ofScalar b)
            (TypeModifier.list :: tail) vs params = Except.ok (Json.arr elements)
        show (match vs.mapM (fun x =>
              ModifiedResult.convert fuel (ResBase.ofScalar b) tail x params) with
            | Except.error e => Except.error e
            | Except.ok els => Except.ok (Json.arr els)) = Except.ok (Json.arr elements)
        rw [hC]
      | null => exact Bool.noConfusion h
      | bool x => exact Bool.noConfusion h
      | int x => exact Bool.noConfusion h
      | float x => exact Bool.noConfusion h
      | str x => exact Bool.noConfusion h
      | obj x => exact Bool.noConfusion h

/-- Witness for `modifier_round_trip` at base `int` under a
`Nullable`-of-`List` chain and a concrete two-element array. -/
theorem modifier_round_trip_witness :
    (ModifiedArgument.require BaseType.int [TypeModifier.nullable, TypeModifier.list]
        "xs" [("xs", Json.arr [Json.int 1, Json.int 2])]).bind
      (fun v => ModifiedResult.convert 0 (ResBase.ofScalar BaseType.int)
        [TypeModifier.nullable, TypeModifier.list] v
        { arguments := [], selection := Option.none, fragments := [], vars := [] }) =
    Except.ok (Json.arr [Json.int 1, Json.int 2]) :=
  modifier_round_trip BaseType.int [TypeModifier.nullable, TypeModifier.list] "xs"
    (Json.arr [Json.int 1, Json.int 2]) 0
    { arguments := [], selection := Option.none, fragments := [], vars := [] } rfl

/-- C9: `find` converts every `SchemaError` raised by `require` into
`present = false` and otherwise returns `require`'s value with
`present = true`; being total (the C++ function is `noexcept` with every
`schema_exception` caught), it never propagates an exception. -/
theorem find_no_throw_spec (b : BaseType) (ji : Int) (jf : Rat) (jb : Bool)
    (m : List TypeModifier) (name : String) (args : JObj) :
    (∀ v, ModifiedArgument.require b m name args = Except.ok v →
      ModifiedArgument.find b ji jf jb m name args = (v, true))
    ∧ (∀ e, ModifiedArgument.require b m name args = Except.error e →
      (ModifiedArgument.find b ji jf jb m name args).2 = false) := by
  unfold ModifiedArgument.find
  constructor
  · intro v h
    rw [h]
  · intro e h
    rw [h]

/-- Witness for `find_no_throw_spec`: a present argument yields the value
with `true`, a missing one yields `false`. -/
theorem find_no_throw_spec_witness :
    ModifiedArgument.find BaseType.int 0 0 false [] "x" [("x", Json.int 3)] = (3, true)
    ∧ (ModifiedArgument.find BaseType.int 0 0 false [] "y" []).2 = false :=
  ⟨(find_no_throw_spec BaseType.int 0 0 false [] "x" [("x", Json.int 3)]).1 3 rfl,
   (find_no_throw_spec BaseType.int 0 0 false [] "y" []).2
     (ModifiedArgument.invalidArgument "y" "Key not found") rfl⟩

/-- C10 (code bug): when `find` reports `present = false`, the value it
returns for a trivially-constructible scalar such as `int` is NOT the
default-constructed (zero) value: the local `type value;` at
`GraphQLService.h:182`/`h:220` is default-initialized, which leaves an
`int` indeterminate — the pair carries whatever the stack slot held
(modelled by the junk argument), contradicting the header's own comment
(`h:88`: "you just got the default value for that type"). -/
theorem find_uninitialized_value :
    ModifiedArgument.find BaseType.int 7 0 false [] "x" [] = (7, false)
    ∧ ModifiedArgument.find BaseType.int 5 0 false [] "x" [] = (5, false)
    ∧ (7 : Int) ≠ 0 :=
  ⟨rfl, rfl, by decide⟩

end GraphQL
